import Mathlib

/-!
Verification of the XAUUSD market-analysis system's aggregation/caching layer
and technical/correlation analysis engine, shallowly embedded from the Python
source (`data_fetcher.py`, `technical_analysis.py`, `market_analysis.py`,
`config.py`).  Prices, rates and times are modelled as rationals; Python
dictionaries keyed by strings are modelled as association lists.
-/

namespace XAU

/-- Outcome of invoking a Python fetch function (the `fetch_func` argument of
`MarketDataAggregator._get_cached_data`): `ok v` is any non-`None` return
value — including empty containers such as `[]`, which the cache's
`if data is not None` guard treats like any other success — `nil` is a
`None` return, and `raises` is a raised exception. -/
inductive FetchOutcome (α : Type) where
  | ok (v : α)
  | nil
  | raises
deriving DecidableEq

/-- Association-list lookup, modelling Python `d.get(k)` / `k in d`. -/
def lookupKV {α : Type} (l : List (String × α)) (k : String) : Option α :=
  match l with
  | [] => none
  | (k', v) :: rest => if k' = k then some v else lookupKV rest k

/-- Association-list update, modelling Python `d[k] = v`. -/
def insertKV {α : Type} (l : List (String × α)) (k : String) (v : α) :
    List (String × α) :=
  match l with
  | [] => [(k, v)]
  | (k', v') :: rest =>
    if k' = k then (k, v) :: rest else (k', v') :: insertKV rest k v

/-- Mutable state of `MarketDataAggregator`: `self.cache` and
`self.cache_timestamps`. -/
structure CacheState (α : Type) where
  cache : List (String × α)
  timestamps : List (String × ℚ)
deriving DecidableEq

/-- The fetch branch of `_get_cached_data` (reached on cache miss or expiry):
the guard is `if data is not None`, so any non-`None` result — an empty one
such as `[]` included — is stored with `fetched_at = now` and returned; only
if the fetch returns `None` or raises is the previous cached value (possibly
absent) returned, with the state unchanged.  The boolean records whether
`fetch_func` was invoked. -/
def fetch_branch {α : Type} (st : CacheState α) (key : String) (now : ℚ)
    (fetch : FetchOutcome α) : Option α × CacheState α × Bool :=
  match fetch with
  | .ok d => (some d, ⟨insertKV st.cache key d, insertKV st.timestamps key now⟩, true)
  | .nil => (lookupKV st.cache key, st, true)
  | .raises => (lookupKV st.cache key, st, true)

/-- `MarketDataAggregator._get_cached_data(key, ttl, fetch_func)`, with the
wall clock `now` passed explicitly and the behaviour of `fetch_func`
abstracted to its outcome.  Returns the value handed to the caller, the new
aggregator state, and whether `fetch_func` was invoked. -/
def get_cached_data {α : Type} (st : CacheState α) (key : String) (ttl now : ℚ)
    (fetch : FetchOutcome α) : Option α × CacheState α × Bool :=
  match lookupKV st.cache key, lookupKV st.timestamps key with
  | some v, some t =>
    if now - t < ttl then (some v, st, false)
    else fetch_branch st key now fetch
  | some _, none => fetch_branch st key now fetch
  | none, some _ => fetch_branch st key now fetch
  | none, none => fetch_branch st key now fetch

/-- One observable action of the fetch orchestrator: sleeping for a number of
seconds, or issuing a provider request for a cache key. -/
inductive Action where
  | sleep (secs : ℚ)
  | apiCall (key : String)
deriving DecidableEq

/-- Cache key for a price-history request, as built in
`MarketDataAggregator.get_xauusd_data`: `f"price_{config.SYMBOL}_{timeframe}"`. -/
def price_cache_key (symbol timeframe : String) : String :=
  "price_" ++ symbol ++ "_" ++ timeframe

/-- One iteration of the Group A per-interval loop in `get_xauusd_data`: if the
interval's cache key is absent from `self.cache` (presence only — freshness is
not checked here), sleep 2 seconds, then call `_get_cached_data`.  The clock
advances by the slept seconds (network latency is ignored).  Returns the new
state, the emitted action trace, the fetched data, and the clock after the
optional sleep. -/
def fetch_timeframe {α : Type} (st : CacheState α) (now : ℚ)
    (symbol timeframe : String) (ttl : ℚ) (fetch : FetchOutcome α) :
    CacheState α × List Action × Option α × ℚ :=
  let key := price_cache_key symbol timeframe
  let absent := (lookupKV st.cache key).isNone
  let now' := if absent then now + 2 else now
  let pre : List Action := if absent then [.sleep 2] else []
  let r := get_cached_data st key ttl now' fetch
  (r.2.1, pre ++ (if r.2.2 then [.apiCall key] else []), r.1, now')

/-- The Group A price-history loop of `get_xauusd_data`, iterating
`fetch_timeframe` over the configured timeframes; collects the state, the
concatenated action trace, and the per-timeframe data that was returned
non-null. -/
def group_a_price_loop {α : Type} (st : CacheState α) (now : ℚ) (symbol : String)
    (ttl : ℚ) (fetches : String → FetchOutcome α) :
    List String → CacheState α × List Action × List (String × α)
  | [] => (st, [], [])
  | tf :: tfs =>
    let r := fetch_timeframe st now symbol tf ttl (fetches tf)
    let rest := group_a_price_loop r.1 r.2.2.2 symbol ttl fetches tfs
    (rest.1, r.2.1 ++ rest.2.1,
      match r.2.2.1 with
      | some d => (tf, d) :: rest.2.2
      | none => rest.2.2)

/-- Checks that every provider call in a trace is immediately preceded by the
fixed 2-second inter-call delay. -/
def delayedCallsB : List Action → Bool
  | [] => true
  | Action.sleep s :: Action.apiCall _ :: rest => decide (s = 2) && delayedCallsB rest
  | Action.sleep _ :: rest => delayedCallsB rest
  | Action.apiCall _ :: _ => false

/-- Concrete aggregator state holding a stale (but present) price-history cache
entry for the 1h interval: stored at time 0, read far past the TTL. -/
def staleState : CacheState ℚ :=
  ⟨[("price_XAU/USD_1h", 5)], [("price_XAU/USD_1h", 0)]⟩

/-- A scripted provider response to one HTTP request issued by a
`TwelveDataFetcher` method: HTTP 429 (rate limited), another failure
(connection error or non-2xx status, which `raise_for_status` turns into an
exception), HTTP 200 carrying an error/malformed payload, or HTTP 200 with a
well-formed payload abstracted to its parsed value. -/
inductive ApiResp (α : Type) where
  | rateLimited
  | failure
  | apiError
  | ok (v : α)
deriving DecidableEq

/-- `TwelveDataFetcher.get_quote` run against a response script (responses are
consumed in order; an exhausted script means the request raises).  On a 429 it
sleeps 61s and retries exactly once; `raise_for_status` on the retry's
response converts any remaining non-2xx (including a second 429) into an
exception caught by the enclosing `try`, yielding `None`.  Returns the
result, the number of requests issued, and the seconds slept. -/
def get_quote {α : Type} (script : List (ApiResp α)) : Option α × ℕ × ℚ :=
  match script with
  | [] => (none, 1, 0)
  | .rateLimited :: rest =>
    match rest with
    | [] => (none, 2, 61)
    | .ok v :: _ => (some v, 2, 61)
    | .apiError :: _ => (none, 2, 61)
    | .rateLimited :: _ => (none, 2, 61)
    | .failure :: _ => (none, 2, 61)
  | .ok v :: _ => (some v, 1, 0)
  | .apiError :: _ => (none, 1, 0)
  | .failure :: _ => (none, 1, 0)

/-- `TwelveDataFetcher.get_price_data` run against a response script.  It has
no rate-limit handling at all: `raise_for_status` turns a 429 (like any other
non-2xx) into an exception caught by the enclosing `try`, yielding `None`
immediately — no sleep, no retry.  Returns the result, the number of requests
issued, and the seconds slept. -/
def get_price_data {α : Type} (script : List (ApiResp α)) : Option α × ℕ × ℚ :=
  match script with
  | [] => (none, 1, 0)
  | .ok v :: _ => (some v, 1, 0)
  | .rateLimited :: _ => (none, 1, 0)
  | .apiError :: _ => (none, 1, 0)
  | .failure :: _ => (none, 1, 0)

/-- `config.CORRELATION_SYMBOLS` (the active free-tier map, name → symbol). -/
def CORRELATION_SYMBOLS : List (String × String) :=
  [("EUR/USD", "EUR/USD"), ("USD/JPY", "USD/JPY"),
   ("GBP/USD", "GBP/USD"), ("BTC/USD", "BTC/USD")]

/-- The values of `config.CORRELATION_SYMBOLS` in insertion order, i.e.
`symbols_map.values()` in `get_correlation_data`. -/
def correlation_symbol_values : List String := CORRELATION_SYMBOLS.map Prod.snd

/-- `e` is a possible result of Python `list(set(vs))`: an enumeration of the
set of `vs` — duplicate-free, containing exactly the elements of `vs`, in an
order left unspecified by Python (set iteration order). -/
def IsSetEnum (e vs : List String) : Prop := e.Nodup ∧ e ⊆ vs ∧ vs ⊆ e

instance (e vs : List String) : Decidable (IsSetEnum e vs) := by
  unfold IsSetEnum; infer_instance

/-- `batch_string = ",".join(symbols_list)` in `get_correlation_data`. -/
def batch_string (e : List String) : String := String.intercalate "," e

/-- The cache key used for the batched correlation quote request:
`f"quotes_batch_{batch_string}"`. -/
def quotes_batch_key (e : List String) : String :=
  "quotes_batch_" ++ batch_string e

/-- The batched-quote fetch of `get_correlation_data`: one `_get_cached_data`
call under the batch key derived from the set enumeration `e`. -/
def correlation_batch_fetch {α : Type} (st : CacheState α) (ttl now : ℚ)
    (e : List String) (fetch : FetchOutcome α) : Option α × CacheState α × Bool :=
  get_cached_data st (quotes_batch_key e) ttl now fetch

/-- A price candle as parsed by `TwelveDataFetcher.get_price_data`. -/
structure Candle where
  open_ : ℚ
  high : ℚ
  low : ℚ
  close : ℚ
  volume : ℚ
deriving DecidableEq

/-- One-step close-to-close changes `closes[i] - closes[i-1]`, as accumulated
by the loop in `calculate_rsi`. -/
def priceChanges (closes : List ℚ) : List ℚ :=
  (closes.zip closes.tail).map fun p => p.2 - p.1

/-- Python list slice `l[-n:]` for `n ≥ 1`: the trailing `min n (length l)`
elements. -/
def lastN {β : Type} (n : ℕ) (l : List β) : List β := l.drop (l.length - n)

/-- The `gains` list of `calculate_rsi`: `max(change, 0)` per one-step
change. -/
def rsi_gains (closes : List ℚ) : List ℚ :=
  (priceChanges closes).map fun c => max c 0

/-- The `losses` list of `calculate_rsi`: `max(-change, 0)` per one-step
change. -/
def rsi_losses (closes : List ℚ) : List ℚ :=
  (priceChanges closes).map fun c => max (-c) 0

/-- `sum(l[-period:]) / period`, the trailing average used for `avg_gain` and
`avg_loss` in `calculate_rsi`. -/
def avg_last (period : ℕ) (l : List ℚ) : ℚ := (lastN period l).sum / (period : ℚ)

/-- The final RSI computation of `calculate_rsi`: 100 when the average loss is
exactly zero, else `100 - 100 / (1 + rs)` with `rs = avg_gain / avg_loss`. -/
def rsi_formula (avg_gain avg_loss : ℚ) : Option ℚ :=
  if avg_loss = 0 then some 100
  else some (100 - 100 / (1 + avg_gain / avg_loss))

/-- `TechnicalAnalyzer.calculate_rsi` (Wilder-style simple-average RSI over
the trailing `period` one-step changes); `None` when fewer than `period + 1`
candles are available. -/
def calculate_rsi (data : List Candle) (period : ℕ) : Option ℚ :=
  if data.length < period + 1 then none
  else if (rsi_gains (data.map Candle.close)).length < period then none
  else
    rsi_formula (avg_last period (rsi_gains (data.map Candle.close)))
      (avg_last period (rsi_losses (data.map Candle.close)))

/-- Python `max` over a list (0 for `[]`, which is unreachable in the source:
`identify_support_resistance` guards `len(data) >= 5`). -/
def listMax : List ℚ → ℚ
  | [] => 0
  | x :: xs => xs.foldl max x

/-- Python `min` over a list (0 for `[]`, unreachable as for `listMax`). -/
def listMin : List ℚ → ℚ
  | [] => 0
  | x :: xs => xs.foldl min x

/-- The local-maximum scan of `identify_support_resistance`: for
`i in range(2, len(hs) - 2)`, keep `hs[i]` when strictly greater than its two
neighbours on each side. -/
def local_maxima (hs : List ℚ) : List ℚ :=
  (List.range hs.length).filterMap fun i =>
    if 2 ≤ i ∧ i + 2 < hs.length ∧
        hs.getD i 0 > hs.getD (i - 1) 0 ∧ hs.getD i 0 > hs.getD (i - 2) 0 ∧
        hs.getD i 0 > hs.getD (i + 1) 0 ∧ hs.getD i 0 > hs.getD (i + 2) 0 then
      some (hs.getD i 0)
    else none

/-- The local-minimum scan of `identify_support_resistance`. -/
def local_minima (ls : List ℚ) : List ℚ :=
  (List.range ls.length).filterMap fun i =>
    if 2 ≤ i ∧ i + 2 < ls.length ∧
        ls.getD i 0 < ls.getD (i - 1) 0 ∧ ls.getD i 0 < ls.getD (i - 2) 0 ∧
        ls.getD i 0 < ls.getD (i + 1) 0 ∧ ls.getD i 0 < ls.getD (i + 2) 0 then
      some (ls.getD i 0)
    else none

/-- The accumulation loop of `_cluster_levels`: `cur` is `clustered[-1]`, the
last appended cluster representative; a level is appended exactly when its
relative distance to `cur` exceeds the threshold, and is merged (dropped)
otherwise. -/
def cluster_go (t : ℚ) (cur : ℚ) : List ℚ → List ℚ
  | [] => []
  | l :: ls =>
    if |l - cur| / cur > t then l :: cluster_go t l ls else cluster_go t cur ls

/-- `TechnicalAnalyzer._cluster_levels(levels, threshold=0.001)`: sort
ascending, seed the clustered list with the smallest level, then run the
accumulation loop. -/
def cluster_levels (levels : List ℚ) (t : ℚ := 1 / 1000) : List ℚ :=
  match List.insertionSort (· ≤ ·) levels with
  | [] => []
  | x :: xs => x :: cluster_go t x xs

/-- `TechnicalAnalyzer.identify_support_resistance`, returning the
(resistance, support) lists: local extrema over the trailing `lookback`
candles plus the overall max high / min low, clustered, then sorted
descending and truncated to 5 per side. -/
def identify_support_resistance (data : List Candle) (lookback : ℕ := 50) :
    List ℚ × List ℚ :=
  if data.length < 5 then ([], [])
  else
    let lb := min lookback data.length
    let recent := data.drop (data.length - lb)
    let highs := recent.map Candle.high
    let lows := recent.map Candle.low
    let resistance_levels := local_maxima highs ++ [listMax highs]
    let support_levels := local_minima lows ++ [listMin lows]
    ((List.insertionSort (· ≥ ·) (cluster_levels resistance_levels)).take 5,
     (List.insertionSort (· ≥ ·) (cluster_levels support_levels)).take 5)

/-- An upcoming economic event; `time` is in minutes on the same clock as the
`now` passed to the analysis engine. -/
structure NewsEvent where
  title : String
  impact : String
  time : ℚ
deriving DecidableEq

/-- The rule `abs(correlation_analysis["yield"].get("change_bps", 0)) > 5` of
`determine_primary_driver`; `none` models absence of the "yield" key. -/
def yield_rule_fires (yield_change_bps : Option ℚ) : Bool :=
  match yield_change_bps with
  | some b => decide (|b| > 5)
  | none => false

/-- The rule `abs(correlation_analysis["dxy"].get("percent_change", 0)) > 0.5`
of `determine_primary_driver`; `none` models absence of the "dxy" key. -/
def dxy_rule_fires (dxy_percent_change : Option ℚ) : Bool :=
  match dxy_percent_change with
  | some p => decide (|p| > 1 / 2)
  | none => false

/-- The tail of `determine_primary_driver` after the news-event check (the
code reaches it by falling through the early `return`). -/
def determine_driver_rest (rsi_status : String)
    (yield_change_bps dxy_percent_change : Option ℚ) : String :=
  if rsi_status = "Overbought" ∨ rsi_status = "Oversold" then "Technical"
  else if yield_rule_fires yield_change_bps then "Fundamental"
  else if dxy_rule_fires dxy_percent_change then "Sentiment"
  else "Technical"

/-- `MarketAnalysisEngine.determine_primary_driver`, with the wall clock `now`
(in minutes) passed explicitly: if a next event exists and fires in under 60
minutes, "Fundamental"; else the RSI, yield and dollar-proxy rules in order,
defaulting to "Technical". -/
def determine_primary_driver (now : ℚ) (rsi_status : String)
    (news_events : List NewsEvent)
    (yield_change_bps dxy_percent_change : Option ℚ) : String :=
  match news_events with
  | e :: _ =>
    if e.time - now < 60 then "Fundamental"
    else determine_driver_rest rsi_status yield_change_bps dxy_percent_change
  | [] => determine_driver_rest rsi_status yield_change_bps dxy_percent_change

/-- A quote-like reading (price and percent change) for a correlated proxy. -/
structure Reading where
  price : ℚ
  percent_change : ℚ
deriving DecidableEq

/-- The record built under key "vix" by `analyze_correlations`. -/
structure VixAnalysis where
  price : ℚ
  percent_change : ℚ
  fear_level : String
  haven_demand : String
  direction : String
deriving DecidableEq

/-- The VIX branch of `MarketAnalysisEngine.analyze_correlations`. -/
def analyze_vix (vix : Reading) : VixAnalysis :=
  { price := vix.price
    percent_change := vix.percent_change
    fear_level :=
      if vix.price > 30 then "Extreme Fear"
      else if vix.price > 20 then "High Fear"
      else if vix.price > 15 then "Moderate"
      else "Low Fear"
    haven_demand :=
      if vix.price > 30 then "Very High"
      else if vix.price > 20 then "High"
      else if vix.price > 15 then "Moderate"
      else "Low"
    direction :=
      if vix.percent_change > 0 then "▲"
      else if vix.percent_change < 0 then "▼"
      else "→" }

end XAU

namespace XAU

theorem lookupKV_insertKV_self {α : Type} (l : List (String × α)) (k : String)
    (v : α) : lookupKV (insertKV l k v) k = some v := by
  induction l with
  | nil => simp [insertKV, lookupKV]
  | cons p rest ih =>
    obtain ⟨k', v'⟩ := p
    by_cases h : k' = k <;> simp [insertKV, lookupKV, h, ih]

theorem lookupKV_insertKV_ne {α : Type} (l : List (String × α)) (k k' : String)
    (v : α) (h : k ≠ k') : lookupKV (insertKV l k v) k' = lookupKV l k' := by
  induction l with
  | nil => simp [insertKV, lookupKV, h]
  | cons p rest ih =>
    obtain ⟨k₀, v₀⟩ := p
    by_cases h₀ : k₀ = k
    · subst h₀; simp [insertKV, lookupKV, h]
    · simp [insertKV, lookupKV, h₀, ih]

/-- If `_get_cached_data` invoked a fetch that succeeded with `v`, then it
returned `v` and stored it under `key` with timestamp `now`. -/
theorem get_cached_data_stores {α : Type} (st : CacheState α) (key : String)
    (ttl now : ℚ) (v : α)
    (hinv : (get_cached_data st key ttl now (.ok v)).2.2 = true) :
    (get_cached_data st key ttl now (.ok v)).1 = some v ∧
    lookupKV (get_cached_data st key ttl now (.ok v)).2.1.cache key = some v ∧
    lookupKV (get_cached_data st key ttl now (.ok v)).2.1.timestamps key = some now := by
  unfold get_cached_data at hinv ⊢
  cases hc : lookupKV st.cache key with
  | none =>
    cases ht : lookupKV st.timestamps key <;>
      simp [hc, ht, fetch_branch, lookupKV_insertKV_self]
  | some v' =>
    cases ht : lookupKV st.timestamps key with
    | none => simp [hc, ht, fetch_branch, lookupKV_insertKV_self]
    | some t =>
      simp only [hc, ht] at hinv ⊢
      by_cases hfr : now - t < ttl
      · rw [if_pos hfr] at hinv
        simp at hinv
      · rw [if_neg hfr]
        simp [fetch_branch, lookupKV_insertKV_self]

/-- If a fresh entry exists for `key`, `_get_cached_data` returns it without
invoking the fetch function and without touching the state. -/
theorem get_cached_data_fresh {α : Type} (st : CacheState α) (key : String)
    (ttl now t : ℚ) (v : α) (f : FetchOutcome α)
    (hc : lookupKV st.cache key = some v)
    (ht : lookupKV st.timestamps key = some t) (hf : now - t < ttl) :
    get_cached_data st key ttl now f = (some v, st, false) := by
  unfold get_cached_data
  simp [hc, ht, hf]

/-- C1: if a `get_or_fetch` call stores a value at time `fetched_at`, then any
later call for the same key issued while `now - fetched_at < ttl` returns that
identical stored value without invoking its fetch function; hence two calls
within the TTL invoke the underlying fetch function at most once and return
the identical value both times. -/
theorem cache_two_calls_within_ttl {α : Type} (st : CacheState α) (key : String)
    (ttl now₀ now₁ : ℚ) (v : α) (f₂ : FetchOutcome α)
    (hstore : (get_cached_data st key ttl now₀ (.ok v)).2.2 = true)
    (hfresh : now₁ - now₀ < ttl) :
    (get_cached_data st key ttl now₀ (.ok v)).1 = some v ∧
    get_cached_data (get_cached_data st key ttl now₀ (.ok v)).2.1 key ttl now₁ f₂ =
      (some v, (get_cached_data st key ttl now₀ (.ok v)).2.1, false) := by
  obtain ⟨hret, hcache, hts⟩ := get_cached_data_stores st key ttl now₀ v hstore
  exact ⟨hret, get_cached_data_fresh _ key ttl now₁ now₀ v f₂ hcache hts hfresh⟩

/-- Witness for C1 at a concrete input: an empty cache, key "k", TTL 30,
store at time 0, re-read at time 10 with a fetch that would raise. -/
theorem cache_two_calls_within_ttl_witness :
    (get_cached_data (⟨[], []⟩ : CacheState ℚ) "k" 30 0 (.ok 5)).2.2 = true ∧
    (10 : ℚ) - 0 < 30 ∧
    (get_cached_data (⟨[], []⟩ : CacheState ℚ) "k" 30 0 (.ok 5)).1 = some 5 ∧
    get_cached_data (get_cached_data (⟨[], []⟩ : CacheState ℚ) "k" 30 0 (.ok 5)).2.1
        "k" 30 10 .raises =
      (some 5, (get_cached_data (⟨[], []⟩ : CacheState ℚ) "k" 30 0 (.ok 5)).2.1, false) := by
  refine ⟨by decide, by norm_num, ?_⟩
  exact cache_two_calls_within_ttl (⟨[], []⟩ : CacheState ℚ) "k" 30 0 10 5 .raises
    (by decide) (by norm_num)

/-- On an expired entry, `_get_cached_data` proceeds to the fetch branch. -/
theorem get_cached_data_expired {α : Type} (st : CacheState α) (key : String)
    (ttl now t : ℚ) (v : α) (f : FetchOutcome α)
    (hc : lookupKV st.cache key = some v)
    (ht : lookupKV st.timestamps key = some t) (hstale : ¬(now - t < ttl)) :
    get_cached_data st key ttl now f = fetch_branch st key now f := by
  unfold get_cached_data
  simp [hc, ht, hstale]

/-- C2 counterexample: an empty non-`None` fetch result does not fall back to
the previous value.  On a stale entry for "k" holding the candle list `[5]`,
a fetch that returns the empty list `[]` (as `get_price_data` does when the
provider's values array parses to nothing) passes the `if data is not None`
guard: the call returns `[]` and overwrites the previous entry, instead of
returning the previously stored `[5]` as the claim requires. -/
theorem cache_empty_result_clobbers_cex :
    get_cached_data (⟨[("k", [(5 : ℚ)])], [("k", 0)]⟩ : CacheState (List ℚ)) "k" 30 100
        (.ok []) =
      (some [], ⟨[("k", [])], [("k", 100)]⟩, true) ∧
    lookupKV (⟨[("k", [(5 : ℚ)])], [("k", 0)]⟩ : CacheState (List ℚ)).cache "k" =
      some [5] ∧
    some ([] : List ℚ) ≠ some [(5 : ℚ)] := by
  refine ⟨?_, rfl, by simp⟩
  rw [get_cached_data_expired (⟨[("k", [(5 : ℚ)])], [("k", 0)]⟩ : CacheState (List ℚ))
    "k" 30 100 0 [5] (.ok []) rfl rfl (by norm_num)]
  rfl

/-- C2 amended: on an expired entry, if the fetch raises or returns `None`,
`_get_cached_data` returns the previously stored value unchanged (even though
stale) and never propagates the fetch error; if no previous entry exists for
that key it returns `None`, not an error.  A fetch that returns an empty but
non-`None` result is treated as a success, not a failure: it is stored with
`fetched_at = now` and returned, replacing the previous entry. -/
theorem cache_stale_fallback {α : Type} (st : CacheState α) (key : String)
    (ttl now : ℚ) :
    (∀ f : FetchOutcome α, f = .nil ∨ f = .raises →
      (∀ v t, lookupKV st.cache key = some v → lookupKV st.timestamps key = some t →
        ¬(now - t < ttl) → get_cached_data st key ttl now f = (some v, st, true)) ∧
      (lookupKV st.cache key = none →
        get_cached_data st key ttl now f = (none, st, true))) ∧
    (∀ (v' : α) v t, lookupKV st.cache key = some v →
      lookupKV st.timestamps key = some t → ¬(now - t < ttl) →
      get_cached_data st key ttl now (.ok v') =
        (some v', ⟨insertKV st.cache key v', insertKV st.timestamps key now⟩, true)) := by
  constructor
  · intro f hf
    constructor
    · intro v t hc ht hstale
      unfold get_cached_data
      rcases hf with rfl | rfl <;> simp [hc, ht, hstale, fetch_branch]
    · intro hc
      unfold get_cached_data
      cases ht : lookupKV st.timestamps key <;>
        rcases hf with rfl | rfl <;> simp [hc, ht, fetch_branch]
  · intro v' v t hc ht hstale
    rw [get_cached_data_expired st key ttl now t v (.ok v') hc ht hstale]
    rfl

/-- Witness for the amended C2 at concrete inputs: a stale entry ("k" stored
at time 0, TTL 30, read at time 100) with a raising fetch returns the stale
value; a missing key with a `None` fetch returns `None`; and the same stale
entry over candle-list values is overwritten by an empty non-`None` result. -/
theorem cache_stale_fallback_witness :
    get_cached_data (⟨[("k", (5 : ℚ))], [("k", 0)]⟩ : CacheState ℚ) "k" 30 100 .raises =
      (some 5, ⟨[("k", 5)], [("k", 0)]⟩, true) ∧
    get_cached_data (⟨[], []⟩ : CacheState ℚ) "missing" 30 100 .nil =
      (none, ⟨[], []⟩, true) ∧
    get_cached_data (⟨[("k", [(5 : ℚ)])], [("k", 0)]⟩ : CacheState (List ℚ)) "k" 30 100
        (.ok []) = (some [], ⟨[("k", [])], [("k", 100)]⟩, true) := by
  refine ⟨?_, ?_, ?_⟩
  · exact ((cache_stale_fallback (⟨[("k", (5 : ℚ))], [("k", 0)]⟩ : CacheState ℚ) "k" 30
      100).1 .raises (Or.inr rfl)).1 5 0 (by decide) (by decide) (by norm_num)
  · exact ((cache_stale_fallback (⟨[], []⟩ : CacheState ℚ) "missing" 30
      100).1 .nil (Or.inl rfl)).2 (by decide)
  · exact (cache_stale_fallback (⟨[("k", [(5 : ℚ)])], [("k", 0)]⟩ : CacheState (List ℚ))
      "k" 30 100).2 [] [5] 0 (by decide) (by decide) (by norm_num)

/-- C6 counterexample: a rate-limited price-history request is not retried.
With a script whose first response is HTTP 429 and whose second would succeed,
`get_price_data` returns `None` after a single request with no cooldown sleep
— it neither pauses nor retries, contrary to the claim. -/
theorem price_data_rate_limit_no_retry_cex :
    get_price_data [(ApiResp.rateLimited : ApiResp ℚ), .ok 5] = (none, 1, 0) ∧
    (get_price_data [(ApiResp.rateLimited : ApiResp ℚ), .ok 5]).2.1 ≠ 2 ∧
    (get_price_data [(ApiResp.rateLimited : ApiResp ℚ), .ok 5]).2.2 ≠ 61 ∧
    (get_price_data [(ApiResp.rateLimited : ApiResp ℚ), .ok 5]).1 ≠ some 5 := by
  decide

/-- C6 amended: only the quote fetch handles rate limiting — on a 429,
`get_quote` pauses for the fixed 61-second cooldown and retries the same
request exactly once, a second failure of any kind yielding a null result
and no exception; a rate-limited price-history request yields a null result
immediately, with no pause and no retry, and also raises nothing. -/
theorem rate_limit_retry_quote_only {α : Type} :
    (∀ rest : List (ApiResp α),
        (get_quote (ApiResp.rateLimited :: rest)).2.1 = 2 ∧
        (get_quote (ApiResp.rateLimited :: rest)).2.2 = 61) ∧
    (∀ (v : α) (rest : List (ApiResp α)),
        get_quote (ApiResp.rateLimited :: ApiResp.ok v :: rest) = (some v, 2, 61)) ∧
    (∀ (r : ApiResp α) (rest : List (ApiResp α)), (∀ v, r ≠ ApiResp.ok v) →
        get_quote (ApiResp.rateLimited :: r :: rest) = (none, 2, 61)) ∧
    (∀ rest : List (ApiResp α),
        get_price_data (ApiResp.rateLimited :: rest) = (none, 1, 0)) := by
  refine ⟨fun rest => ?_, fun v rest => rfl, fun r rest hr => ?_, fun rest => rfl⟩
  · cases rest with
    | nil => exact ⟨rfl, rfl⟩
    | cons r rest => cases r <;> exact ⟨rfl, rfl⟩
  · cases r with
    | ok v => exact absurd rfl (hr v)
    | rateLimited => rfl
    | failure => rfl
    | apiError => rfl

/-- Witness for the amended C6 at concrete inputs: a 429 followed by a second
failure gives a null quote after two requests and a 61s pause. -/
theorem rate_limit_retry_quote_only_witness :
    get_quote [(ApiResp.rateLimited : ApiResp ℚ), .failure] = (none, 2, 61) ∧
    get_price_data [(ApiResp.rateLimited : ApiResp ℚ), .failure] = (none, 1, 0) := by
  refine ⟨?_, (rate_limit_retry_quote_only (α := ℚ)).2.2.2 [.failure]⟩
  exact (rate_limit_retry_quote_only (α := ℚ)).2.2.1 .failure []
    (fun v h => ApiResp.noConfusion h)

/-- Unfolding of one Group A iteration on a present-but-stale entry: no sleep
is emitted, yet the provider is called. -/
theorem fetch_timeframe_present_stale {α : Type} (st : CacheState α) (now : ℚ)
    (symbol tf : String) (ttl : ℚ) (fetch : FetchOutcome α) (v : α) (t : ℚ)
    (hc : lookupKV st.cache (price_cache_key symbol tf) = some v)
    (ht : lookupKV st.timestamps (price_cache_key symbol tf) = some t)
    (hstale : ¬(now - t < ttl)) :
    (fetch_timeframe st now symbol tf ttl fetch).2.1 =
      [Action.apiCall (price_cache_key symbol tf)] := by
  unfold fetch_timeframe get_cached_data
  cases fetch <;> simp [hc, ht, hstale, fetch_branch]

/-- C7 counterexample: a price-history request refreshing a stale-but-present
cache entry reaches the provider without the inter-call delay.  Starting from
`staleState` (entry fetched at time 0, read at time 1000, TTL 300), the Group A
loop issues the provider call with no preceding sleep. -/
theorem group_a_stale_entry_undelayed_call_cex :
    (group_a_price_loop staleState 1000 "XAU/USD" 300
        (fun _ => FetchOutcome.ok 6) ["1h"]).2.1 =
      [Action.apiCall "price_XAU/USD_1h"] ∧
    delayedCallsB (group_a_price_loop staleState 1000 "XAU/USD" 300
        (fun _ => FetchOutcome.ok 6) ["1h"]).2.1 = false := by
  have h1 : (fetch_timeframe staleState 1000 "XAU/USD" "1h" 300 (FetchOutcome.ok 6)).2.1 =
      [Action.apiCall (price_cache_key "XAU/USD" "1h")] :=
    fetch_timeframe_present_stale staleState 1000 "XAU/USD" "1h" 300 (FetchOutcome.ok 6)
      5 0 rfl rfl (by norm_num)
  have htr : (group_a_price_loop staleState 1000 "XAU/USD" 300
      (fun _ => FetchOutcome.ok 6) ["1h"]).2.1 = [Action.apiCall "price_XAU/USD_1h"] := by
    simp only [group_a_price_loop]
    rw [List.append_nil] at *
    exact h1
  exact ⟨htr, by rw [htr]; rfl⟩

/-- Unfolding of one Group A iteration when the interval's key is absent from
the cache map: the trace is exactly the 2-second sleep followed by the
provider call, and the state is the fetch branch's state at clock `now + 2`. -/
theorem fetch_timeframe_absent {α : Type} (st : CacheState α) (now : ℚ)
    (symbol tf : String) (ttl : ℚ) (fetch : FetchOutcome α)
    (habs : lookupKV st.cache (price_cache_key symbol tf) = none) :
    fetch_timeframe st now symbol tf ttl fetch =
      ((fetch_branch st (price_cache_key symbol tf) (now + 2) fetch).2.1,
        [.sleep 2, .apiCall (price_cache_key symbol tf)],
        (fetch_branch st (price_cache_key symbol tf) (now + 2) fetch).1, now + 2) := by
  unfold fetch_timeframe get_cached_data
  cases ht : lookupKV st.timestamps (price_cache_key symbol tf) <;>
    cases fetch <;> simp [habs, ht, fetch_branch]

/-- C7 amended: the inter-call delay is gated on the key's presence in the
cache map, not on freshness.  If every interval's key is absent from the
cache (and the keys are pairwise distinct), every provider call issued by the
Group A loop is immediately preceded by the 2-second delay; but whenever an
interval's entry is present — fresh or stale — the iteration sleeps not at
all, even though a stale entry still leads to a provider call. -/
theorem group_a_delay_iff_key_absent {α : Type} (symbol : String) (ttl : ℚ) :
    (∀ (st : CacheState α) (now : ℚ) (fetches : String → FetchOutcome α)
        (tfs : List String),
        (∀ tf ∈ tfs, lookupKV st.cache (price_cache_key symbol tf) = none) →
        (tfs.map (price_cache_key symbol)).Nodup →
        delayedCallsB (group_a_price_loop st now symbol ttl fetches tfs).2.1 = true) ∧
    (∀ (st : CacheState α) (now : ℚ) (tf : String) (fetch : FetchOutcome α) (s : ℚ),
        lookupKV st.cache (price_cache_key symbol tf) ≠ none →
        Action.sleep s ∉ (fetch_timeframe st now symbol tf ttl fetch).2.1) := by
  constructor
  · intro st now fetches tfs
    induction tfs generalizing st now with
    | nil => intro _ _; rfl
    | cons tf tfs ih =>
      intro habs hnd
      have hkey : lookupKV st.cache (price_cache_key symbol tf) = none :=
        habs tf (List.mem_cons_self tf tfs)
      have hne : ∀ tf' ∈ tfs, price_cache_key symbol tf ≠ price_cache_key symbol tf' := by
        intro tf' htf' heq
        have : price_cache_key symbol tf ∈ tfs.map (price_cache_key symbol) :=
          heq ▸ List.mem_map_of_mem _ htf'
        exact (List.nodup_cons.mp (by simpa using hnd)).1 this
      have habs' : ∀ fetch : FetchOutcome α, ∀ tf' ∈ tfs,
          lookupKV (fetch_branch st (price_cache_key symbol tf) (now + 2) fetch).2.1.cache
            (price_cache_key symbol tf') = none := by
        intro fetch tf' htf'
        cases fetch with
        | ok d =>
          simpa [fetch_branch, lookupKV_insertKV_ne _ _ _ _ (hne tf' htf')]
            using habs tf' (List.mem_cons_of_mem tf htf')
        | nil => simpa [fetch_branch] using habs tf' (List.mem_cons_of_mem tf htf')
        | raises => simpa [fetch_branch] using habs tf' (List.mem_cons_of_mem tf htf')
      have hnd' : (tfs.map (price_cache_key symbol)).Nodup :=
        (List.nodup_cons.mp (by simpa using hnd)).2
      show delayedCallsB (group_a_price_loop st now symbol ttl fetches (tf :: tfs)).2.1 = true
      unfold group_a_price_loop
      rw [fetch_timeframe_absent st now symbol tf ttl (fetches tf) hkey]
      have := ih (fetch_branch st (price_cache_key symbol tf) (now + 2) (fetches tf)).2.1
        (now + 2) (habs' (fetches tf)) hnd'
      simpa [delayedCallsB] using this
  · intro st now tf fetch s hpres
    unfold fetch_timeframe
    have : (lookupKV st.cache (price_cache_key symbol tf)).isNone = false := by
      cases h : lookupKV st.cache (price_cache_key symbol tf) with
      | none => exact absurd h hpres
      | some v => rfl
    cases h2 : (get_cached_data st (price_cache_key symbol tf) ttl now fetch).2.2 <;>
      simp [this, h2]

/-- Witness for the amended C7 at concrete inputs: with an empty cache and the
three configured timeframes, every provider call in the Group A trace is
preceded by the 2-second delay; and on `staleState` the single iteration for
the 1h interval contains no sleep. -/
theorem group_a_delay_iff_key_absent_witness :
    delayedCallsB (group_a_price_loop (⟨[], []⟩ : CacheState ℚ) 0 "XAU/USD" 300
        (fun _ => FetchOutcome.ok 6) ["15min", "1h", "4h"]).2.1 = true ∧
    Action.sleep 2 ∉ (fetch_timeframe staleState 1000 "XAU/USD" "1h" 300
        (FetchOutcome.ok 6)).2.1 := by
  constructor
  · exact (group_a_delay_iff_key_absent (α := ℚ) "XAU/USD" 300).1 ⟨[], []⟩ 0
      (fun _ => FetchOutcome.ok 6) ["15min", "1h", "4h"] (by decide) (by decide)
  · exact (group_a_delay_iff_key_absent (α := ℚ) "XAU/USD" 300).2 staleState 1000 "1h"
      (FetchOutcome.ok 6) 2 (by decide)

/-- C8 counterexample: the batch cache key is not a function of the set of
configured symbols and is not derived from the sorted list.  Both lists below
are legitimate enumerations of the set of configured correlation symbols (the
second one is the sorted one), yet they produce different cache keys, because
the code joins `list(set(...))` in set-iteration order without sorting. -/
theorem quotes_batch_key_unsorted_cex :
    IsSetEnum ["EUR/USD", "USD/JPY", "GBP/USD", "BTC/USD"] correlation_symbol_values ∧
    IsSetEnum ["BTC/USD", "EUR/USD", "GBP/USD", "USD/JPY"] correlation_symbol_values ∧
    quotes_batch_key ["EUR/USD", "USD/JPY", "GBP/USD", "BTC/USD"] ≠
      quotes_batch_key ["BTC/USD", "EUR/USD", "GBP/USD", "USD/JPY"] := by
  decide

/-- C8 amended: the batched correlation quote is cached under
`"quotes_batch_" ++ ",".join(e)` where `e` is the de-duplicated symbol list in
(unspecified) set-iteration order: `e` is duplicate-free and contains exactly
the configured instrument symbols, and for a fixed enumeration the key is
deterministic, so a second batched fetch within the TTL is served from cache
without invoking the provider. -/
theorem quotes_batch_key_dedup_enum_order {α : Type} (e : List String)
    (he : IsSetEnum e correlation_symbol_values) (st : CacheState α)
    (ttl now₀ now₁ : ℚ) (v : α) (f₂ : FetchOutcome α)
    (hstore : (correlation_batch_fetch st ttl now₀ e (.ok v)).2.2 = true)
    (hfresh : now₁ - now₀ < ttl) :
    e.Nodup ∧ (∀ s, s ∈ e ↔ s ∈ correlation_symbol_values) ∧
    correlation_batch_fetch (correlation_batch_fetch st ttl now₀ e (.ok v)).2.1
        ttl now₁ e f₂ =
      (some v, (correlation_batch_fetch st ttl now₀ e (.ok v)).2.1, false) := by
  refine ⟨he.1, fun s => ⟨fun h => he.2.1 h, fun h => he.2.2 h⟩, ?_⟩
  obtain ⟨hret, hcache, hts⟩ :=
    get_cached_data_stores st (quotes_batch_key e) ttl now₀ v hstore
  exact get_cached_data_fresh _ _ ttl now₁ now₀ v f₂ hcache hts hfresh

/-- Witness for the amended C8 at a concrete input: the insertion-order
enumeration, an empty cache, TTL 60, store at time 0, re-read at time 10. -/
theorem quotes_batch_key_dedup_enum_order_witness :
    (["EUR/USD", "USD/JPY", "GBP/USD", "BTC/USD"] : List String).Nodup ∧
    correlation_batch_fetch
        (correlation_batch_fetch (⟨[], []⟩ : CacheState ℚ) 60 0
          ["EUR/USD", "USD/JPY", "GBP/USD", "BTC/USD"] (.ok 7)).2.1
        60 10 ["EUR/USD", "USD/JPY", "GBP/USD", "BTC/USD"] .raises =
      (some 7,
        (correlation_batch_fetch (⟨[], []⟩ : CacheState ℚ) 60 0
          ["EUR/USD", "USD/JPY", "GBP/USD", "BTC/USD"] (.ok 7)).2.1, false) := by
  have h := quotes_batch_key_dedup_enum_order (α := ℚ)
    ["EUR/USD", "USD/JPY", "GBP/USD", "BTC/USD"] (by decide) ⟨[], []⟩ 60 0 10 7 .raises
    (by decide) (by norm_num)
  exact ⟨h.1, h.2.2⟩

theorem priceChanges_cons_cons (a b : ℚ) (l : List ℚ) :
    priceChanges (a :: b :: l) = (b - a) :: priceChanges (b :: l) := rfl

theorem priceChanges_pos_of_chain_lt (closes : List ℚ)
    (h : List.Chain' (· < ·) closes) : ∀ c ∈ priceChanges closes, 0 < c := by
  induction closes with
  | nil => intro c hc; simp [priceChanges] at hc
  | cons a l ih =>
    cases l with
    | nil => intro c hc; simp [priceChanges] at hc
    | cons b m =>
      intro c hc
      rw [priceChanges_cons_cons] at hc
      rcases List.mem_cons.mp hc with rfl | hc
      · have hab : a < b := (List.chain'_cons.mp h).1
        linarith
      · exact ih (List.chain'_cons.mp h).2 c hc

theorem priceChanges_neg_of_chain_gt (closes : List ℚ)
    (h : List.Chain' (· > ·) closes) : ∀ c ∈ priceChanges closes, c < 0 := by
  induction closes with
  | nil => intro c hc; simp [priceChanges] at hc
  | cons a l ih =>
    cases l with
    | nil => intro c hc; simp [priceChanges] at hc
    | cons b m =>
      intro c hc
      rw [priceChanges_cons_cons] at hc
      rcases List.mem_cons.mp hc with rfl | hc
      · have hab : a > b := (List.chain'_cons.mp h).1
        linarith
      · exact ih (List.chain'_cons.mp h).2 c hc

theorem priceChanges_length (closes : List ℚ) :
    (priceChanges closes).length = closes.length - 1 := by
  simp [priceChanges, List.length_zip]

theorem rsi_gains_length (closes : List ℚ) :
    (rsi_gains closes).length = closes.length - 1 := by
  simp [rsi_gains, priceChanges_length]

theorem rsi_losses_length (closes : List ℚ) :
    (rsi_losses closes).length = closes.length - 1 := by
  simp [rsi_losses, priceChanges_length]

theorem lastN_length {β : Type} (n : ℕ) (l : List β) :
    (lastN n l).length = min n l.length := by
  simp [lastN]
  omega

theorem lastN_subset {β : Type} (n : ℕ) (l : List β) : ∀ x ∈ lastN n l, x ∈ l :=
  fun x hx => (List.drop_sublist _ _).subset hx

theorem rsi_gains_nonneg (closes : List ℚ) : ∀ x ∈ rsi_gains closes, 0 ≤ x := by
  intro x hx
  obtain ⟨c, _, rfl⟩ := List.mem_map.mp hx
  exact le_max_right c 0

theorem rsi_losses_nonneg (closes : List ℚ) : ∀ x ∈ rsi_losses closes, 0 ≤ x := by
  intro x hx
  obtain ⟨c, _, rfl⟩ := List.mem_map.mp hx
  exact le_max_right (-c) 0

theorem avg_last_nonneg (period : ℕ) (l : List ℚ) (h : ∀ x ∈ l, 0 ≤ x) :
    0 ≤ avg_last period l :=
  div_nonneg (List.sum_nonneg fun x hx => h x (lastN_subset period l x hx))
    (Nat.cast_nonneg period)

/-- C3: `calculate_rsi` returns null on fewer than `period + 1` candles;
returns exactly 100 for strictly increasing closes and exactly 0 for strictly
decreasing closes (given at least `period + 1` candles and a positive
period); and every non-null result lies in `[0, 100]`. -/
theorem calculate_rsi_spec :
    (∀ (data : List Candle) (period : ℕ), data.length < period + 1 →
        calculate_rsi data period = none) ∧
    (∀ (data : List Candle) (period : ℕ), 1 ≤ period → period + 1 ≤ data.length →
        List.Chain' (· < ·) (data.map Candle.close) →
        calculate_rsi data period = some 100) ∧
    (∀ (data : List Candle) (period : ℕ), 1 ≤ period → period + 1 ≤ data.length →
        List.Chain' (· > ·) (data.map Candle.close) →
        calculate_rsi data period = some 0) ∧
    (∀ (data : List Candle) (period : ℕ) (r : ℚ),
        calculate_rsi data period = some r → 0 ≤ r ∧ r ≤ 100) := by
  refine ⟨fun data period h => ?_, fun data period hp hlen hmono => ?_,
    fun data period hp hlen hmono => ?_, fun data period r h => ?_⟩
  · unfold calculate_rsi
    rw [if_pos h]
  · have hcl : (data.map Candle.close).length = data.length := List.length_map _ _
    unfold calculate_rsi
    rw [if_neg (by omega), if_neg (by rw [rsi_gains_length]; omega)]
    have hzero : avg_last period (rsi_losses (data.map Candle.close)) = 0 := by
      unfold avg_last
      have : (lastN period (rsi_losses (data.map Candle.close))).sum = 0 := by
        apply List.sum_eq_zero
        intro x hx
        obtain ⟨c, hc, rfl⟩ :=
          List.mem_map.mp (lastN_subset _ _ x hx)
        have : 0 < c := priceChanges_pos_of_chain_lt _ hmono c hc
        simp [max_eq_right]
        linarith
      rw [this, zero_div]
    rw [hzero]
    unfold rsi_formula
    rw [if_pos rfl]
  · have hcl : (data.map Candle.close).length = data.length := List.length_map _ _
    unfold calculate_rsi
    rw [if_neg (by omega), if_neg (by rw [rsi_gains_length]; omega)]
    have hgain : avg_last period (rsi_gains (data.map Candle.close)) = 0 := by
      unfold avg_last
      have : (lastN period (rsi_gains (data.map Candle.close))).sum = 0 := by
        apply List.sum_eq_zero
        intro x hx
        obtain ⟨c, hc, rfl⟩ :=
          List.mem_map.mp (lastN_subset _ _ x hx)
        have : c < 0 := priceChanges_neg_of_chain_gt _ hmono c hc
        simp [max_eq_left]
        linarith
      rw [this, zero_div]
    have hloss : 0 < avg_last period (rsi_losses (data.map Candle.close)) := by
      unfold avg_last
      apply div_pos
      · apply List.sum_pos
        · intro x hx
          obtain ⟨c, hc, rfl⟩ :=
            List.mem_map.mp (lastN_subset _ _ x hx)
          have : c < 0 := priceChanges_neg_of_chain_gt _ hmono c hc
          simp
          linarith
        · have : (lastN period (rsi_losses (data.map Candle.close))).length = period := by
            rw [lastN_length, rsi_losses_length, hcl]
            omega
          intro hnil
          rw [hnil] at this
          simp at this
          omega
      · exact_mod_cast Nat.pos_of_ne_zero (by omega)
    rw [hgain]
    unfold rsi_formula
    rw [if_neg (ne_of_gt hloss)]
    rw [zero_div, add_zero]
    norm_num
  · unfold calculate_rsi at h
    split_ifs at h with h1 h2
    unfold rsi_formula at h
    split_ifs at h with h3
    · cases h
      norm_num
    · cases h
      have hgain : 0 ≤ avg_last period (rsi_gains (data.map Candle.close)) :=
        avg_last_nonneg _ _ (rsi_gains_nonneg _)
      have hloss0 : 0 ≤ avg_last period (rsi_losses (data.map Candle.close)) :=
        avg_last_nonneg _ _ (rsi_losses_nonneg _)
      have hloss : 0 < avg_last period (rsi_losses (data.map Candle.close)) :=
        lt_of_le_of_ne hloss0 (Ne.symm h3)
      have hrs : 0 ≤ avg_last period (rsi_gains (data.map Candle.close)) /
          avg_last period (rsi_losses (data.map Candle.close)) :=
        div_nonneg hgain hloss0
      have h1rs : (0:ℚ) < 1 + avg_last period (rsi_gains (data.map Candle.close)) /
          avg_last period (rsi_losses (data.map Candle.close)) := by linarith
      have hqpos : 0 < 100 / (1 + avg_last period (rsi_gains (data.map Candle.close)) /
          avg_last period (rsi_losses (data.map Candle.close))) := by positivity
      have hqle : 100 / (1 + avg_last period (rsi_gains (data.map Candle.close)) /
          avg_last period (rsi_losses (data.map Candle.close))) ≤ 100 := by
        rw [div_le_iff h1rs]
        nlinarith
      constructor <;> linarith

/-- Witness for C3 at concrete inputs: two rising candles with period 1 give
RSI 100 (in bounds), two falling candles give RSI 0, and an empty series with
period 14 gives null. -/
theorem calculate_rsi_spec_witness :
    calculate_rsi [] 14 = none ∧
    calculate_rsi [⟨1, 1, 1, 1, 0⟩, ⟨1, 2, 1, 2, 0⟩] 1 = some 100 ∧
    calculate_rsi [⟨1, 2, 1, 2, 0⟩, ⟨1, 1, 1, 1, 0⟩] 1 = some 0 ∧
    (0 : ℚ) ≤ 100 ∧ (100 : ℚ) ≤ 100 := by
  have h2 : calculate_rsi [⟨1, 1, 1, 1, 0⟩, ⟨1, 2, 1, 2, 0⟩] 1 = some 100 :=
    calculate_rsi_spec.2.1 [⟨1, 1, 1, 1, 0⟩, ⟨1, 2, 1, 2, 0⟩] 1 (by norm_num)
      (by norm_num) (by simp [List.chain'_cons])
  have h3 : calculate_rsi [⟨1, 2, 1, 2, 0⟩, ⟨1, 1, 1, 1, 0⟩] 1 = some 0 :=
    calculate_rsi_spec.2.2.1 [⟨1, 2, 1, 2, 0⟩, ⟨1, 1, 1, 1, 0⟩] 1 (by norm_num)
      (by norm_num) (by simp [List.chain'_cons])
  have h4 := calculate_rsi_spec.2.2.2 [⟨1, 1, 1, 1, 0⟩, ⟨1, 2, 1, 2, 0⟩] 1 100 h2
  exact ⟨calculate_rsi_spec.1 [] 14 (by norm_num), h2, h3, h4.1, h4.2⟩

theorem cluster_go_sublist (t cur : ℚ) (ls : List ℚ) :
    List.Sublist (cluster_go t cur ls) ls := by
  induction ls generalizing cur with
  | nil => simp [cluster_go]
  | cons l ls ih =>
    unfold cluster_go
    by_cases h : |l - cur| / cur > t
    · rw [if_pos h]
      exact List.Sublist.cons₂ _ (ih l)
    · rw [if_neg h]
      exact List.Sublist.cons _ (ih cur)

theorem cluster_levels_sublist (levels : List ℚ) (t : ℚ) :
    List.Sublist (cluster_levels levels t) (List.insertionSort (· ≤ ·) levels) := by
  unfold cluster_levels
  cases h : List.insertionSort (· ≤ ·) levels with
  | nil => simp
  | cons x xs => exact List.Sublist.cons₂ _ (cluster_go_sublist t x xs)

theorem cluster_levels_sorted (levels : List ℚ) (t : ℚ) :
    List.Sorted (· ≤ ·) (cluster_levels levels t) :=
  List.Pairwise.sublist (cluster_levels_sublist levels t)
    (List.sorted_insertionSort _ levels)

theorem cluster_go_cover (t : ℚ) (ht : 0 ≤ t) (cur : ℚ) (ls : List ℚ) :
    ∀ l ∈ cur :: ls, ∃ c ∈ cur :: cluster_go t cur ls, |l - c| / c ≤ t := by
  induction ls generalizing cur with
  | nil =>
    intro l hl
    rw [List.mem_singleton] at hl
    subst hl
    exact ⟨l, List.mem_cons_self _ _, by simpa using ht⟩
  | cons y ys ih =>
    intro l hl
    unfold cluster_go
    by_cases h : |y - cur| / cur > t
    · rw [if_pos h]
      rcases List.mem_cons.mp hl with rfl | hl'
      · exact ⟨l, List.mem_cons_self _ _, by simpa using ht⟩
      · obtain ⟨c, hc, hlc⟩ := ih y l hl'
        exact ⟨c, List.mem_cons_of_mem _ hc, hlc⟩
    · rw [if_neg h]
      rcases List.mem_cons.mp hl with rfl | hl'
      · exact ⟨l, List.mem_cons_self _ _, by simpa using ht⟩
      · rcases List.mem_cons.mp hl' with rfl | hl''
        · exact ⟨cur, List.mem_cons_self _ _, not_lt.mp h⟩
        · exact ih cur l (List.mem_cons_of_mem _ hl'')

theorem cluster_levels_cover (levels : List ℚ) (t : ℚ) (ht : 0 ≤ t) :
    ∀ l ∈ levels, ∃ c ∈ cluster_levels levels t, |l - c| / c ≤ t := by
  intro l hl
  unfold cluster_levels
  cases h : List.insertionSort (· ≤ ·) levels with
  | nil =>
    exfalso
    have : l ∈ List.insertionSort (· ≤ ·) levels := (List.mem_insertionSort _).mpr hl
    rw [h] at this
    exact List.not_mem_nil l this
  | cons x xs =>
    apply cluster_go_cover t ht x xs l
    rw [← h]
    exact (List.mem_insertionSort _).mpr hl

theorem cluster_go_chain (t : ℚ) (cur : ℚ) (ls : List ℚ) :
    List.Chain' (fun a b => |b - a| / a > t) (cur :: cluster_go t cur ls) := by
  induction ls generalizing cur with
  | nil => simp [cluster_go]
  | cons y ys ih =>
    unfold cluster_go
    by_cases h : |y - cur| / cur > t
    · rw [if_pos h]
      exact List.chain'_cons.mpr ⟨h, ih y⟩
    · rw [if_neg h]
      exact ih cur

theorem cluster_go_fixed (t : ℚ) (x : ℚ) (xs : List ℚ)
    (h : List.Chain' (fun a b => |b - a| / a > t) (x :: xs)) :
    cluster_go t x xs = xs := by
  induction xs generalizing x with
  | nil => simp [cluster_go]
  | cons y ys ih =>
    obtain ⟨hxy, h'⟩ := List.chain'_cons.mp h
    unfold cluster_go
    rw [if_pos hxy, ih y h']

theorem cluster_levels_chain (levels : List ℚ) (t : ℚ) :
    List.Chain' (fun a b => |b - a| / a > t) (cluster_levels levels t) := by
  unfold cluster_levels
  cases h : List.insertionSort (· ≤ ·) levels with
  | nil => simp
  | cons x xs => exact cluster_go_chain t x xs

theorem cluster_levels_eq_self (t : ℚ) (s : List ℚ)
    (hs : List.Sorted (· ≤ ·) s)
    (hchain : List.Chain' (fun a b => |b - a| / a > t) s) :
    cluster_levels s t = s := by
  unfold cluster_levels
  rw [hs.insertionSort_eq]
  cases s with
  | nil => rfl
  | cons x xs =>
    show x :: cluster_go t x xs = x :: xs
    rw [cluster_go_fixed t x xs hchain]

theorem cluster_levels_head_min (levels : List ℚ) (t : ℚ) (hne : levels ≠ []) :
    ∃ h, (cluster_levels levels t).head? = some h ∧ h ∈ levels ∧
      ∀ y ∈ levels, h ≤ y := by
  unfold cluster_levels
  cases h : List.insertionSort (· ≤ ·) levels with
  | nil =>
    exfalso
    have hlen := List.length_insertionSort (· ≤ ·) levels
    rw [h] at hlen
    exact hne (List.length_eq_zero.mp hlen.symm)
  | cons x xs =>
    refine ⟨x, rfl, ?_, ?_⟩
    · have : x ∈ List.insertionSort (· ≤ ·) levels := by
        rw [h]
        exact List.mem_cons_self _ _
      exact (List.mem_insertionSort _).mp this
    · intro y hy
      have hy' : y ∈ x :: xs := by
        rw [← h]
        exact (List.mem_insertionSort _).mpr hy
      have hsorted : List.Sorted (· ≤ ·) (x :: xs) := by
        rw [← h]
        exact List.sorted_insertionSort _ levels
      rcases List.mem_cons.mp hy' with rfl | hy''
      · exact le_refl y
      · exact List.rel_of_sorted_cons hsorted y hy''

/-- Helper: the concrete clustering example from the spec, evaluated against
the embedded `_cluster_levels`. -/
theorem cluster_levels_example :
    cluster_levels [100, 100.05, 105] = [100, 105] := by
  have hsorted : List.Sorted (· ≤ ·) ([100, 100.05, 105] : List ℚ) := by
    norm_num [List.sorted_cons]
  have c1 : ¬(|(100.05 : ℚ) - 100| / 100 > 1 / 1000) := by
    rw [abs_of_nonneg (by norm_num)]
    norm_num
  have c2 : |(105 : ℚ) - 100| / 100 > 1 / 1000 := by
    rw [abs_of_nonneg (by norm_num)]
    norm_num
  unfold cluster_levels
  rw [hsorted.insertionSort_eq]
  show 100 :: cluster_go (1 / 1000) 100 [100.05, 105] = [100, 105]
  unfold cluster_go
  rw [if_neg c1]
  unfold cluster_go
  rw [if_pos c2]
  rfl

theorem take5_sorted_desc (l : List ℚ) :
    ((List.insertionSort (· ≥ ·) l).take 5).length ≤ 5 ∧
    List.Sorted (· ≥ ·) ((List.insertionSort (· ≥ ·) l).take 5) := by
  constructor
  · rw [List.length_take]
    exact min_le_left _ _
  · exact List.Pairwise.sublist (List.take_sublist 5 _)
      (List.sorted_insertionSort _ l)

theorem identify_sr_bounds (data : List Candle) (lookback : ℕ) :
    (identify_support_resistance data lookback).1.length ≤ 5 ∧
    (identify_support_resistance data lookback).2.length ≤ 5 ∧
    List.Sorted (· ≥ ·) (identify_support_resistance data lookback).1 ∧
    List.Sorted (· ≥ ·) (identify_support_resistance data lookback).2 := by
  unfold identify_support_resistance
  by_cases h : data.length < 5
  · simp [h]
  · rw [if_neg h]
    exact ⟨(take5_sorted_desc _).1, (take5_sorted_desc _).1,
      (take5_sorted_desc _).2, (take5_sorted_desc _).2⟩

/-- C4: clustering merges every level to within the 0.1% relative tolerance of
a member of the clustered output and keeps the clustered list sorted
ascending; the support/resistance output retains at most 5 resistance and 5
support clusters, each side sorted descending by price; and the concrete
input `[100.0, 100.05, 105.0]` clusters to exactly `[100.0, 105.0]`. -/
theorem cluster_and_sr_spec :
    cluster_levels [100, 100.05, 105] = [100, 105] ∧
    (∀ levels : List ℚ, ∀ l ∈ levels,
        ∃ c ∈ cluster_levels levels, |l - c| / c ≤ 1 / 1000) ∧
    (∀ (levels : List ℚ) (t : ℚ), List.Sorted (· ≤ ·) (cluster_levels levels t)) ∧
    (∀ (data : List Candle) (lookback : ℕ),
        (identify_support_resistance data lookback).1.length ≤ 5 ∧
        (identify_support_resistance data lookback).2.length ≤ 5 ∧
        List.Sorted (· ≥ ·) (identify_support_resistance data lookback).1 ∧
        List.Sorted (· ≥ ·) (identify_support_resistance data lookback).2) :=
  ⟨cluster_levels_example,
   fun levels => cluster_levels_cover levels (1 / 1000) (by norm_num),
   cluster_levels_sorted, identify_sr_bounds⟩

/-- Witness for C4 at a concrete input: in the example list, the merged level
100.05 is within 0.1% of a retained cluster member. -/
theorem cluster_and_sr_spec_witness :
    (100.05 : ℚ) ∈ ([100, 100.05, 105] : List ℚ) ∧
    (∃ c ∈ cluster_levels [100, 100.05, 105], |(100.05 : ℚ) - c| / c ≤ 1 / 1000) :=
  ⟨by norm_num,
   cluster_and_sr_spec.2.1 [100, 100.05, 105] 100.05 (by norm_num)⟩

/-- C10: `_cluster_levels` is idempotent on non-empty lists of strictly
positive levels: re-clustering its output returns it unchanged; the output is
sorted ascending and its first element is the minimum of the input levels. -/
theorem cluster_levels_idempotent_spec (levels : List ℚ) (hne : levels ≠ [])
    (_hpos : ∀ l ∈ levels, 0 < l) :
    cluster_levels (cluster_levels levels) = cluster_levels levels ∧
    List.Sorted (· ≤ ·) (cluster_levels levels) ∧
    ∃ h, (cluster_levels levels).head? = some h ∧ h ∈ levels ∧
      ∀ y ∈ levels, h ≤ y :=
  ⟨cluster_levels_eq_self _ _ (cluster_levels_sorted levels _)
      (cluster_levels_chain levels _),
   cluster_levels_sorted levels _,
   cluster_levels_head_min levels _ hne⟩

/-- Witness for C10 at the concrete input `[100, 100.05, 105]`. -/
theorem cluster_levels_idempotent_spec_witness :
    cluster_levels (cluster_levels [100, 100.05, 105]) =
      cluster_levels [100, 100.05, 105] ∧
    List.Sorted (· ≤ ·) (cluster_levels [100, 100.05, 105]) ∧
    ∃ h, (cluster_levels [100, 100.05, 105]).head? = some h ∧
      h ∈ ([100, 100.05, 105] : List ℚ) ∧
      ∀ y ∈ ([100, 100.05, 105] : List ℚ), h ≤ y :=
  cluster_levels_idempotent_spec [100, 100.05, 105] (by simp)
    (by intro l hl; fin_cases hl <;> norm_num)

/-- C5: the primary-driver classification applies its rules in a fixed order,
first match wins — "Fundamental" if the next event is under 60 minutes away;
else "Technical" on Overbought/Oversold RSI; else "Fundamental" on a 10Y
basis-point move over 5; else "Sentiment" on a dollar-proxy move over 0.5%;
else "Technical". -/
theorem determine_primary_driver_rules (now : ℚ) (rsi_status : String)
    (events : List NewsEvent) (yb dp : Option ℚ) :
    (∀ e rest, events = e :: rest → e.time - now < 60 →
      determine_primary_driver now rsi_status events yb dp = "Fundamental") ∧
    ((∀ e rest, events = e :: rest → ¬(e.time - now < 60)) →
      ((rsi_status = "Overbought" ∨ rsi_status = "Oversold") →
        determine_primary_driver now rsi_status events yb dp = "Technical") ∧
      (¬(rsi_status = "Overbought" ∨ rsi_status = "Oversold") →
        (yield_rule_fires yb = true →
          determine_primary_driver now rsi_status events yb dp = "Fundamental") ∧
        (yield_rule_fires yb = false → dxy_rule_fires dp = true →
          determine_primary_driver now rsi_status events yb dp = "Sentiment") ∧
        (yield_rule_fires yb = false → dxy_rule_fires dp = false →
          determine_primary_driver now rsi_status events yb dp = "Technical"))) := by
  constructor
  · rintro e rest rfl hlt
    show (if e.time - now < 60 then "Fundamental"
      else determine_driver_rest rsi_status yb dp) = "Fundamental"
    rw [if_pos hlt]
  · intro hne
    have hrest : determine_primary_driver now rsi_status events yb dp =
        determine_driver_rest rsi_status yb dp := by
      cases events with
      | nil => rfl
      | cons e rest =>
        show (if e.time - now < 60 then "Fundamental"
          else determine_driver_rest rsi_status yb dp) = determine_driver_rest rsi_status yb dp
        rw [if_neg (hne e rest rfl)]
    rw [hrest]
    constructor
    · intro hrsi
      unfold determine_driver_rest
      rw [if_pos hrsi]
    · intro hnrsi
      refine ⟨fun hy => ?_, fun hy hd => ?_, fun hy hd => ?_⟩ <;>
        unfold determine_driver_rest <;> simp [hnrsi, hy]
      · simp [hd]
      · simp [hd]

/-- Witness for C5 at concrete inputs, one per rule: an event 30 minutes away;
Overbought RSI; a 10 bps yield move; a 1% dollar-proxy move; and the default
case. -/
theorem determine_primary_driver_rules_witness :
    determine_primary_driver 0 "Neutral" [⟨"NFP", "High", 30⟩] none none = "Fundamental" ∧
    determine_primary_driver 0 "Overbought" [] none none = "Technical" ∧
    determine_primary_driver 0 "Neutral" [] (some 10) none = "Fundamental" ∧
    determine_primary_driver 0 "Neutral" [] (some 2) (some 1) = "Sentiment" ∧
    determine_primary_driver 0 "Neutral" [] (some 2) (some (1 / 10)) = "Technical" := by
  have hy10 : yield_rule_fires (some 10) = true := by
    show decide (|(10 : ℚ)| > 5) = true
    rw [decide_eq_true_eq, abs_of_nonneg] <;> norm_num
  have hy2 : yield_rule_fires (some 2) = false := by
    show decide (|(2 : ℚ)| > 5) = false
    rw [decide_eq_false_iff_not, abs_of_nonneg] <;> norm_num
  have hd1 : dxy_rule_fires (some 1) = true := by
    show decide (|(1 : ℚ)| > 1 / 2) = true
    rw [decide_eq_true_eq, abs_of_nonneg] <;> norm_num
  have hd01 : dxy_rule_fires (some (1 / 10)) = false := by
    show decide (|(1 / 10 : ℚ)| > 1 / 2) = false
    rw [decide_eq_false_iff_not, abs_of_nonneg] <;> norm_num
  have hnone : yield_rule_fires (none : Option ℚ) = false := rfl
  refine ⟨?_, ?_, ?_, ?_, ?_⟩
  · exact (determine_primary_driver_rules 0 "Neutral" [⟨"NFP", "High", 30⟩] none none).1
      ⟨"NFP", "High", 30⟩ [] rfl (by norm_num)
  · exact ((determine_primary_driver_rules 0 "Overbought" [] none none).2
      (fun e rest h => List.noConfusion h)).1 (Or.inl rfl)
  · exact (((determine_primary_driver_rules 0 "Neutral" [] (some 10) none).2
      (fun e rest h => List.noConfusion h)).2 (by decide)).1 hy10
  · exact (((determine_primary_driver_rules 0 "Neutral" [] (some 2) (some 1)).2
      (fun e rest h => List.noConfusion h)).2 (by decide)).2.1 hy2 hd1
  · exact (((determine_primary_driver_rules 0 "Neutral" [] (some 2) (some (1 / 10))).2
      (fun e rest h => List.noConfusion h)).2 (by decide)).2.2 hy2 hd01

/-- C9 counterexample: at VIX level 25 (and 10), the code's fear-level strings
are "High Fear" (resp. "Low Fear"), not the claim's "High" (resp. "Low"). -/
theorem analyze_vix_fear_string_cex :
    (analyze_vix ⟨25, 0⟩).fear_level = "High Fear" ∧
    ¬(analyze_vix ⟨25, 0⟩).fear_level = "High" ∧
    (analyze_vix ⟨10, 0⟩).fear_level = "Low Fear" ∧
    ¬(analyze_vix ⟨10, 0⟩).fear_level = "Low" := by
  have h25 : (analyze_vix ⟨25, 0⟩).fear_level = "High Fear" := by
    unfold analyze_vix
    norm_num
  have h10 : (analyze_vix ⟨10, 0⟩).fear_level = "Low Fear" := by
    unfold analyze_vix
    norm_num
  refine ⟨h25, ?_, h10, ?_⟩ <;> intro h <;> rw [h25] at * <;> rw [h10] at * <;>
    simp_all

/-- C9 amended: the VIX tiering with the code's exact strings — fear level
"Extreme Fear"/"High Fear"/"Moderate"/"Low Fear" and haven demand
"Very High"/"High"/"Moderate"/"Low" on the thresholds 30, 20, 15. -/
theorem analyze_vix_tiers (p pc : ℚ) :
    (30 < p → (analyze_vix ⟨p, pc⟩).fear_level = "Extreme Fear" ∧
      (analyze_vix ⟨p, pc⟩).haven_demand = "Very High") ∧
    (p ≤ 30 → 20 < p → (analyze_vix ⟨p, pc⟩).fear_level = "High Fear" ∧
      (analyze_vix ⟨p, pc⟩).haven_demand = "High") ∧
    (p ≤ 20 → 15 < p → (analyze_vix ⟨p, pc⟩).fear_level = "Moderate" ∧
      (analyze_vix ⟨p, pc⟩).haven_demand = "Moderate") ∧
    (p ≤ 15 → (analyze_vix ⟨p, pc⟩).fear_level = "Low Fear" ∧
      (analyze_vix ⟨p, pc⟩).haven_demand = "Low") := by
  refine ⟨fun h => ?_, fun h1 h2 => ?_, fun h1 h2 => ?_, fun h => ?_⟩ <;>
    unfold analyze_vix
  · simp [h]
  · simp [not_lt.mpr h1, h2]
  · simp [not_lt.mpr (le_trans h1 (by norm_num : (20 : ℚ) ≤ 30)), not_lt.mpr h1, h2]
  · simp [not_lt.mpr (le_trans h (by norm_num : (15 : ℚ) ≤ 30)),
      not_lt.mpr (le_trans h (by norm_num : (15 : ℚ) ≤ 20)), not_lt.mpr h]

/-- Witness for the amended C9 at concrete VIX levels 31, 25, 16 and 10. -/
theorem analyze_vix_tiers_witness :
    (analyze_vix ⟨31, 0⟩).fear_level = "Extreme Fear" ∧
    (analyze_vix ⟨25, 0⟩).haven_demand = "High" ∧
    (analyze_vix ⟨16, 0⟩).fear_level = "Moderate" ∧
    (analyze_vix ⟨10, 0⟩).haven_demand = "Low" :=
  ⟨((analyze_vix_tiers 31 0).1 (by norm_num)).1,
   ((analyze_vix_tiers 25 0).2.1 (by norm_num) (by norm_num)).2,
   ((analyze_vix_tiers 16 0).2.2.1 (by norm_num) (by norm_num)).1,
   ((analyze_vix_tiers 10 0).2.2.2 (by norm_num)).2⟩

end XAU
